import Mathlib

/-!
Verification development for the mcp-obsidian repository (an MCP bridge to the
Obsidian Local REST API).  The two Python source files — `obsidian.py` (REST
client) and `tools.py` (tool handlers) — are shallowly embedded here: Python
strings become `List Char`, Python dictionaries become association lists,
fallible operations become `Except`, and the outcome of an HTTP interaction is
passed in explicitly, so every definition is executable.
-/

namespace McpObsidian

/-- Convert a Lean string literal to the `List Char` representation used for
Python strings throughout this development. -/
def strL (s : String) : List Char := s.toList

/-! ### Python string primitives -/

/-- Python `str.isspace` restricted to the ASCII whitespace characters
(space, tab, newline, carriage return, vertical tab, form feed). -/
def pyIsSpace (c : Char) : Bool :=
  c == ' ' || c == '\t' || c == '\n' || c == '\r' || c == '\x0b' || c == '\x0c'

/-- Python `str.strip(chars)`: drop characters satisfying `p` from both ends. -/
def stripWhile (p : Char → Bool) (l : List Char) : List Char :=
  ((l.dropWhile p).reverse.dropWhile p).reverse

/-- Python `str.strip()` (no argument): strip whitespace from both ends. -/
def pyStrip (l : List Char) : List Char := stripWhile pyIsSpace l

/-- Python `str.strip('/')`: strip slashes from both ends. -/
def stripSlashes (l : List Char) : List Char := stripWhile (fun c => c == '/') l

/-- Python `str.split('\n')` (split on a single newline separator; a string
with no newline yields one piece, so the empty string yields `[[]]`). -/
def splitLines : List Char → List (List Char)
  | [] => [[]]
  | c :: rest =>
    if c = '\n' then [] :: splitLines rest
    else
      match splitLines rest with
      | [] => [[c]]
      | line :: more => (c :: line) :: more

/-- One pass of Python `path.replace('//', '/')`: scan left to right and
replace each non-overlapping occurrence of two slashes by one. -/
def replaceSS : List Char → List Char
  | [] => []
  | [c] => [c]
  | c1 :: c2 :: rest =>
    if c1 = '/' ∧ c2 = '/' then '/' :: replaceSS rest
    else c1 :: replaceSS (c2 :: rest)

/-- Python `'//' in path`: does the string contain two adjacent slashes? -/
def hasSS : List Char → Bool
  | [] => false
  | [_] => false
  | c1 :: c2 :: rest => (decide (c1 = '/') && decide (c2 = '/')) || hasSS (c2 :: rest)

/-- The `while '//' in path: path = path.replace('//', '/')` loop of
`_normalize_path`, with an explicit fuel argument; each iteration of the
source loop shortens the string, so `l.length` fuel always suffices. -/
def collapseFuel : Nat → List Char → List Char
  | 0, l => l
  | n + 1, l => if hasSS l then collapseFuel n (replaceSS l) else l

/-- The slash-collapsing loop of `_normalize_path`, run to completion. -/
def collapseSlashes (l : List Char) : List Char := collapseFuel l.length l

/-- `Obsidian._normalize_path` (obsidian.py lines 21-49): empty strings are
returned unchanged; otherwise strip whitespace then slashes from both ends,
replace backslashes by forward slashes, and collapse repeated slashes. -/
def normalize_path (path : List Char) : List Char :=
  if path = [] then []
  else
    collapseSlashes
      ((stripSlashes (pyStrip path)).map (fun c => if c = '\\' then '/' else c))

/-! ### Heading extraction (`Obsidian.find_headings`, obsidian.py lines 641-695) -/

/-- One entry of the list returned by `find_headings`:
`{'level': …, 'text': …, 'path': …}`. -/
structure Heading where
  level : Nat
  text : List Char
  path : List Char
deriving DecidableEq

/-- The heading-recognition guard of `find_headings`:
`line.strip().startswith('#') and ' ' in line.strip()`. -/
def isHeadingLine (l : List Char) : Bool :=
  decide ((pyStrip l).head? = some '#') && decide (' ' ∈ pyStrip l)

/-- The level computation of `find_headings`: count the leading `'#'`
characters of the stripped line, stopping at the first other character. -/
def countHash : List Char → Nat
  | [] => 0
  | c :: rest => if c = '#' then countHash rest + 1 else 0

/-- Python `line.split(' ', 1)[1]`: everything after the first space.
`find_headings` only evaluates this under the guard `' ' in line`, so the
fallback `[]` for a space-free line is never reached from `findHeadingsAux`. -/
def afterFirstSpace : List Char → List Char
  | [] => []
  | c :: rest => if c = ' ' then rest else afterFirstSpace rest

/-- The heading text of `find_headings`: `line.strip().split(' ', 1)[1].strip()`
applied to the already-stripped line `s`. -/
def headingText (s : List Char) : List Char := pyStrip (afterFirstSpace s)

/-- The path construction of `find_headings`: search the previously collected
headings from the most recent backwards for the first one with a strictly
smaller level (`for h in reversed(headings): if h['level'] < level: …; break`),
and join its text with the current text using `'::'`. -/
def headingPath (acc : List Heading) (level : Nat) (text : List Char) : List Char :=
  match acc.reverse.find? (fun h => decide (h.level < level)) with
  | some h => h.text ++ ':' :: ':' :: text
  | none => text

/-- The line loop of `find_headings`: iterate over the lines, appending one
`Heading` entry for every line passing the recognition guard. -/
def findHeadingsAux : List (List Char) → List Heading → List Heading
  | [], acc => acc
  | line :: rest, acc =>
    if isHeadingLine line then
      let s := pyStrip line
      let level := countHash s
      let text := headingText s
      findHeadingsAux rest (acc ++ [⟨level, text, headingPath acc level text⟩])
    else findHeadingsAux rest acc

/-- `find_headings` applied to a list of lines (the body of the `try` block
after `content.split('\n')`). -/
def findHeadingsLines (lines : List (List Char)) : List Heading :=
  findHeadingsAux lines []

/-- The pure core of `find_headings`: split the file content into lines and
run the heading loop. -/
def findHeadingsCore (content : List Char) : List Heading :=
  findHeadingsLines (splitLines content)

/-- `Obsidian.find_headings`: the `try` block reads the file and parses it;
the `except` clause turns any read failure into an empty list.  The outcome of
`get_file_contents` is passed in as an `Except` value (error message or file
content). -/
def find_headings (fetched : Except (List Char) (List Char)) : List Heading :=
  match fetched with
  | Except.ok content => findHeadingsCore content
  | Except.error _ => []

/-! ### Client configuration and request construction -/

/-- The `Obsidian.__init__` configuration fields (obsidian.py lines 6-19). -/
structure ObsidianConfig where
  api_key : List Char
  protocol : List Char
  host : List Char
  port : Nat
  verify_ssl : Bool
deriving DecidableEq

/-- A client built with the default constructor arguments
(`protocol='https'`, `host="127.0.0.1"`, `port=27124`, `verify_ssl=False`). -/
def defaultConfig (api_key : List Char) : ObsidianConfig :=
  ⟨api_key, strL "https", strL "127.0.0.1", 27124, false⟩

/-- `Obsidian.get_base_url`: `f'{protocol}://{host}:{port}'`. -/
def get_base_url (cfg : ObsidianConfig) : List Char :=
  cfg.protocol ++ strL "://" ++ cfg.host ++ ':' :: Nat.toDigits 10 cfg.port

/-- `Obsidian._get_headers`: the bearer-token authorization header. -/
def get_headers (cfg : ObsidianConfig) : List (List Char × List Char) :=
  [(strL "Authorization", strL "Bearer " ++ cfg.api_key)]

/-- Python `dict.get(k, default)` over an association list (insertion order). -/
def dictGet (d : List (List Char × List Char)) (k default : List Char) : List Char :=
  match d.find? (fun p => p.1 == k) with
  | some p => p.2
  | none => default

/-- A safe character for `urllib.parse.quote` with the default `safe='/'`:
ASCII letters, digits, `_ . - ~` and `/`. -/
def quoteSafe (c : Char) : Bool :=
  c.isAlpha || c.isDigit || c == '_' || c == '.' || c == '-' || c == '~' || c == '/'

/-- Uppercase hexadecimal digit for percent-encoding. -/
def hexDigit (n : Nat) : Char :=
  if n < 10 then Char.ofNat (48 + n) else Char.ofNat (55 + n)

/-- `urllib.parse.quote(target)` restricted to single-byte (ASCII) characters:
safe characters are kept, others become `%XX`. -/
def urlQuote (l : List Char) : List Char :=
  (l.map (fun c =>
    if quoteSafe c then [c]
    else ['%', hexDigit (c.toNat / 16 % 16), hexDigit (c.toNat % 16)])).flatten

/-! ### `Obsidian.patch_content` (obsidian.py lines 259-335) -/

/-- The `valid_operations` list of `patch_content`. -/
def valid_operations : List (List Char) :=
  [strL "append", strL "prepend", strL "replace"]

/-- The `valid_target_types` list of `patch_content`. -/
def valid_target_types : List (List Char) :=
  [strL "heading", strL "block", strL "frontmatter"]

/-- The single HTTP request that `patch_content` would issue after its local
validation succeeds: the URL, the header dictionary, and the request body. -/
structure PatchRequest where
  url : List Char
  headers : List (List Char × List Char)
  body : List Char
deriving DecidableEq

/-- `Obsidian.patch_content` up to the point where the HTTP request is issued:
validation failures return the `ValueError` message as `Except.error` (no
request is built); otherwise the fully assembled request is returned. -/
def patch_content (cfg : ObsidianConfig)
    (filepath operation target_type target content : List Char)
    (create_if_missing trim_whitespace : Bool) :
    Except (List Char) PatchRequest :=
  if operation ∉ valid_operations then
    Except.error (strL "Operation must be one of: " ++
      (strL ", ").intercalate valid_operations)
  else if target_type ∉ valid_target_types then
    Except.error (strL "Target type must be one of: " ++
      (strL ", ").intercalate valid_target_types)
  else if target = [] then
    Except.error (strL "Target cannot be empty")
  else
    let fp := normalize_path filepath
    let url := get_base_url cfg ++ strL "/vault/" ++ fp
    let headers := get_headers cfg ++
      [(strL "Content-Type", strL "text/markdown"),
       (strL "Operation", operation),
       (strL "Target-Type", target_type),
       (strL "Target", urlQuote target)] ++
      (if create_if_missing then [(strL "Create-Target-If-Missing", strL "true")] else []) ++
      (if trim_whitespace then [(strL "Trim-Target-Whitespace", strL "true")] else [])
    Except.ok ⟨url, headers, content⟩

/-! ### `Obsidian._safe_call` error-message construction (obsidian.py lines 60-119)

Only the `requests.HTTPError` branch is relevant to the claims: it rebuilds the
exception message from the response status code, the server-provided error
code and message, the operation name, and the context dictionary. -/

/-- Python `str(i)` for an integer. -/
def intStr (i : Int) : List Char :=
  if i < 0 then '-' :: Nat.toDigits 10 i.natAbs else Nat.toDigits 10 i.toNat

/-- The `context_details` string of `_safe_call`:
`", ".join([f"{k}='{v}'" for k, v in context.items() if v])`. -/
def ctxDetails (ctx : List (List Char × List Char)) : List Char :=
  (strL ", ").intercalate
    ((ctx.filter (fun p => !p.2.isEmpty)).map
      (fun p => p.1 ++ strL "=\x27" ++ p.2 ++ strL "\x27"))

/-- The enhanced message raised by `_safe_call` when the wrapped call fails
with `requests.HTTPError`: base message, optional operation line, optional
context line, and the status-specific suggestion lines. -/
def safeCallHttpErrorMsg (operation : Option (List Char))
    (context : Option (List (List Char × List Char)))
    (status_code : Nat) (code : Int) (message : List Char) : List Char :=
  let m1 := strL "Error " ++ intStr code ++ strL ": " ++ message
  let m2 := match operation with
    | some op => if op = [] then m1 else m1 ++ strL "\nOperation: " ++ op
    | none => m1
  let m3 := match context with
    | some ctx =>
      if ctx = [] then m2
      else
        let d := ctxDetails ctx
        if d = [] then m2 else m2 ++ strL "\nContext: " ++ d
    | none => m2
  if status_code = 404 then
    if operation = some (strL "get_file_contents") then
      let filepath := match context with
        | some ctx => if ctx = [] then [] else dictGet ctx (strL "filepath") []
        | none => []
      m3 ++ strL "\nSuggestion: Check if the file \x27" ++ filepath ++
        strL "\x27 exists in your vault. Use list_files_in_vault() to see available files."
    else if operation = some (strL "patch_content") then
      m3 ++ strL "\nSuggestion: Verify that the target exists in the document. For headings, ensure exact match including whitespace and case."
    else m3
  else if status_code = 400 then
    if operation = some (strL "patch_content") then
      m3 ++ strL "\nSuggestion: Check that your operation, target_type, and target values are valid. Ensure target is properly URL-encoded if it contains special characters."
    else m3
  else m3

/-- The message of the exception raised to the caller when
`Obsidian.get_file_contents(filepath)` receives an HTTP error response:
`get_file_contents` normalizes the path, passes
`operation="get_file_contents"` and `context={"filepath": filepath}` to
`_safe_call`, and the request fails with the given status, error code and
server message. -/
def get_file_contents_error_msg (filepath : List Char)
    (status_code : Nat) (code : Int) (message : List Char) : List Char :=
  safeCallHttpErrorMsg (some (strL "get_file_contents"))
    (some [(strL "filepath", normalize_path filepath)]) status_code code message

/-! ### `Obsidian.get_batch_file_contents` (obsidian.py lines 186-205) -/

/-- The block appended for one filepath by `get_batch_file_contents`: the
success block with the file content, or the inline error block with the error
text; `fetch` gives the outcome of `get_file_contents` for each path. -/
def fileBlock (fetch : List Char → Except (List Char) (List Char))
    (filepath : List Char) : List Char :=
  match fetch filepath with
  | Except.ok content =>
    strL "# " ++ filepath ++ strL "\n\n" ++ content ++ strL "\n\n---\n\n"
  | Except.error e =>
    strL "# " ++ filepath ++ strL "\n\nError reading file: " ++ e ++ strL "\n\n---\n\n"

/-- The `for filepath in filepaths` loop of `get_batch_file_contents`,
carrying the `result` accumulator list; the `try`/`except` around each file
read becomes the match on the fetch outcome. -/
def getBatchAux (fetch : List Char → Except (List Char) (List Char)) :
    List (List Char) → List (List Char) → List (List Char)
  | [], result => result
  | fp :: rest, result =>
    match fetch fp with
    | Except.ok content =>
      getBatchAux fetch rest
        (result ++ [strL "# " ++ fp ++ strL "\n\n" ++ content ++ strL "\n\n---\n\n"])
    | Except.error e =>
      getBatchAux fetch rest
        (result ++ [strL "# " ++ fp ++ strL "\n\nError reading file: " ++ e ++ strL "\n\n---\n\n"])

/-- `Obsidian.get_batch_file_contents`: run the loop and `"".join` the
accumulated blocks. -/
def get_batch_file_contents (fetch : List Char → Except (List Char) (List Char))
    (filepaths : List (List Char)) : List Char :=
  (getBatchAux fetch filepaths []).flatten

/-! ### `tools.py` module initialization (lines 12-16) -/

/-- `os.getenv(name, default)` over an environment given as an association
list. -/
def osGetenv (env : List (List Char × List Char)) (name default : List Char) :
    List Char :=
  match env.find? (fun p => p.1 == name) with
  | some p => p.2
  | none => default

/-- The module-level initialization of `tools.py`: read `OBSIDIAN_API_KEY`
(default `""`) and `OBSIDIAN_HOST` (default `"127.0.0.1"`), and raise
`ValueError` if the key is empty; on success the pair (api key, host) is
available to the tool handlers. -/
def toolsModuleInit (env : List (List Char × List Char)) (cwd : List Char) :
    Except (List Char) (List Char × List Char) :=
  let api_key := osGetenv env (strL "OBSIDIAN_API_KEY") []
  let obsidian_host := osGetenv env (strL "OBSIDIAN_HOST") (strL "127.0.0.1")
  if api_key = [] then
    Except.error (strL "OBSIDIAN_API_KEY environment variable required. Working directory: " ++ cwd)
  else
    Except.ok (api_key, obsidian_host)

/-! ### `DeleteFileToolHandler.run_tool` (tools.py lines 373-388) -/

/-- A JSON value, as can appear in the argument dictionary handed to a tool
handler (numbers restricted to integers). -/
inductive JValue where
  | jnull
  | jbool (b : Bool)
  | jnum (n : Int)
  | jstr (s : List Char)
  | jarr (elems : List JValue)
  | jobj (fields : List (List Char × JValue))

/-- Python truthiness of a JSON value: `None`, `False`, `0`, `""`, `[]` and
`{}` are falsy, everything else is truthy. -/
def jTruthy : JValue → Bool
  | JValue.jnull => false
  | JValue.jbool b => b
  | JValue.jnum n => decide (n ≠ 0)
  | JValue.jstr s => decide (s ≠ [])
  | JValue.jarr es => !es.isEmpty
  | JValue.jobj fs => !fs.isEmpty

/-- The arguments of the `obsidian_delete_file` tool: the `filepath` and
`confirm` entries of the argument dictionary, each an arbitrary JSON value
when present (the handler itself never checks their types). -/
structure DeleteArgs where
  filepath : Option JValue
  confirm : Option JValue

/-- The observable outcome of `DeleteFileToolHandler.run_tool`: either a
raised `RuntimeError` with its message, or an invocation of
`Obsidian.delete_file` on the given `filepath` argument followed by the
success text. -/
inductive DeleteOutcome where
  | error (msg : List Char)
  | deleted (filepath : JValue)

/-- `DeleteFileToolHandler.run_tool`: raise if `filepath` is missing, raise if
`not args.get("confirm", False)` — i.e. if the `confirm` value (defaulting to
`False`) is Python-falsy — and otherwise call
`api.delete_file(args["filepath"])`. -/
def deleteRunTool (args : DeleteArgs) : DeleteOutcome :=
  match args.filepath with
  | none => DeleteOutcome.error (strL "filepath argument missing in arguments")
  | some fp =>
    if jTruthy (args.confirm.getD (JValue.jbool false)) = false then
      DeleteOutcome.error (strL "confirm must be set to true to delete a file")
    else
      DeleteOutcome.deleted fp

/-! ### Spec-side heading predicate

The specification describes heading recognition as: after trimming, the line
starts with one or more marker characters immediately followed by a space.
This predicate follows the spec's words (not the code) so that the two can be
compared. -/

/-- After at least one leading `'#'`, accept further `'#'` characters and
require the first other character to be a space. -/
def specHashThenSpace : List Char → Bool
  | [] => false
  | c :: rest => if c = '#' then specHashThenSpace rest else decide (c = ' ')

/-- The specification's heading criterion: the trimmed line starts with one or
more `'#'` characters immediately followed by a space. -/
def specIsHeading (l : List Char) : Bool :=
  match pyStrip l with
  | [] => false
  | c :: rest => decide (c = '#') && specHashThenSpace rest

/-! ### Substring occurrence -/

/-- `pat` occurs as a contiguous substring of `s`. -/
def occursIn (pat s : List Char) : Prop := ∃ u v, u ++ pat ++ v = s

/-! ## Theorems -/

theorem getBatchAux_eq (fetch : List Char → Except (List Char) (List Char))
    (fps acc : List (List Char)) :
    getBatchAux fetch fps acc = acc ++ fps.map (fileBlock fetch) := by
  induction fps generalizing acc with
  | nil => simp [getBatchAux]
  | cons fp rest ih =>
    cases h : fetch fp with
    | ok c => simp [getBatchAux, h, fileBlock, ih]
    | error e => simp [getBatchAux, h, fileBlock, ih]

/-- C5: for every outcome of the per-file reads and every list of filepaths,
`get_batch_file_contents` is total (it never raises) and returns the
concatenation, in input order, of exactly one block per path — the success
block with the file content, or the inline error block with the error text —
so a failing path does not abort the remaining paths. -/
theorem batch_contents_is_blockwise_concat
    (fetch : List Char → Except (List Char) (List Char))
    (filepaths : List (List Char)) :
    get_batch_file_contents fetch filepaths =
      (filepaths.map (fileBlock fetch)).flatten := by
  simp [get_batch_file_contents, getBatchAux_eq]

/-- C7: whenever reading the file fails (with any error message),
`find_headings` returns the empty list instead of propagating the error. -/
theorem find_headings_of_failed_read (err : List Char) :
    find_headings (Except.error err) = [] := rfl

/-- C4: on the file content `"# A\n## B\n# C"`, `find_headings` returns
exactly three entries whose paths are, in order, `A`, `A::B`, `C`. -/
theorem find_headings_nested_example :
    find_headings (Except.ok (strL "# A\n## B\n# C")) =
      [⟨1, strL "A", strL "A"⟩, ⟨2, strL "B", strL "A::B"⟩, ⟨1, strL "C", strL "C"⟩] := by
  decide

/-- C3: for every configuration and every argument list, if the operation is
not one of `append`/`prepend`/`replace` or the target type is not one of
`heading`/`block`/`frontmatter`, then `patch_content` returns the
corresponding `ValueError` message and never reaches the request-building
branch, so no HTTP request is issued. -/
theorem patch_content_rejects_invalid_enums (cfg : ObsidianConfig)
    (filepath operation target_type target content : List Char)
    (cim tw : Bool)
    (h : operation ∉ valid_operations ∨ target_type ∉ valid_target_types) :
    ∃ e, patch_content cfg filepath operation target_type target content cim tw =
        Except.error e ∧
      (e = strL "Operation must be one of: append, prepend, replace" ∨
       e = strL "Target type must be one of: heading, block, frontmatter") := by
  by_cases hop : operation ∈ valid_operations
  · have htt : target_type ∉ valid_target_types := by
      rcases h with h | h
      · exact absurd hop h
      · exact h
    refine ⟨strL "Target type must be one of: " ++
      (strL ", ").intercalate valid_target_types, ?_, Or.inr ?_⟩
    · simp [patch_content, hop, htt]
    · decide
  · refine ⟨strL "Operation must be one of: " ++
      (strL ", ").intercalate valid_operations, ?_, Or.inl ?_⟩
    · simp [patch_content, hop]
    · decide

theorem patch_content_rejects_invalid_enums_witness :
    ∃ e, patch_content (defaultConfig (strL "key")) (strL "notes/x.md")
        (strL "delete") (strL "heading") (strL "T") (strL "body") false false =
        Except.error e ∧
      (e = strL "Operation must be one of: append, prepend, replace" ∨
       e = strL "Target type must be one of: heading, block, frontmatter") :=
  patch_content_rejects_invalid_enums _ _ _ _ _ _ _ _ (Or.inl (by decide))

/-- C9: for every valid operation and target type, calling `patch_content`
with an empty target returns the `ValueError` message
`"Target cannot be empty"` without building the HTTP request. -/
theorem patch_content_rejects_empty_target (cfg : ObsidianConfig)
    (filepath operation target_type content : List Char) (cim tw : Bool)
    (hop : operation ∈ valid_operations)
    (htt : target_type ∈ valid_target_types) :
    patch_content cfg filepath operation target_type [] content cim tw =
      Except.error (strL "Target cannot be empty") := by
  simp [patch_content, hop, htt]

theorem patch_content_rejects_empty_target_witness :
    patch_content (defaultConfig (strL "key")) (strL "notes/x.md")
        (strL "append") (strL "heading") [] (strL "body") false false =
      Except.error (strL "Target cannot be empty") :=
  patch_content_rejects_empty_target _ _ _ _ _ _ _ (by decide) (by decide)

/-- C8: at module load of `tools.py`, if the `OBSIDIAN_API_KEY` environment
variable is absent or set to the empty string, initialization fails with a
raised error (so no tool handler can run). -/
theorem tools_init_requires_api_key (env : List (List Char × List Char))
    (cwd : List Char)
    (h : env.find? (fun p => p.1 == strL "OBSIDIAN_API_KEY") = none ∨
      (env.find? (fun p => p.1 == strL "OBSIDIAN_API_KEY")).map Prod.snd = some []) :
    ∃ msg, toolsModuleInit env cwd = Except.error msg := by
  have hkey : osGetenv env (strL "OBSIDIAN_API_KEY") [] = [] := by
    unfold osGetenv
    rcases h with h | h
    · rw [h]
    · cases hf : env.find? (fun p => p.1 == strL "OBSIDIAN_API_KEY") with
      | none => rfl
      | some p => rw [hf] at h; simpa using h
  exact ⟨strL "OBSIDIAN_API_KEY environment variable required. Working directory: " ++ cwd,
    by simp [toolsModuleInit, hkey]⟩

theorem tools_init_requires_api_key_witness :
    ∃ msg, toolsModuleInit [] (strL "/home/user") = Except.error msg :=
  tools_init_requires_api_key [] _ (Or.inl rfl)

/-- C10 fails as stated: the guard is `not args.get("confirm", False)` —
Python truthiness over an arbitrary JSON value, not a comparison with `True`.
With the argument dictionary `{"filepath": "note.md", "confirm": "yes"}` the
string `"yes"` is truthy, so `run_tool` raises nothing and invokes
`delete_file` although `confirm` is not `true`. -/
theorem delete_tool_confirm_truthiness_fails :
    deleteRunTool ⟨some (JValue.jstr (strL "note.md")),
        some (JValue.jstr (strL "yes"))⟩ =
      DeleteOutcome.deleted (JValue.jstr (strL "note.md")) ∧
    JValue.jstr (strL "yes") ≠ JValue.jbool true :=
  ⟨rfl, fun h => JValue.noConfusion h⟩

/-- C10, amended: for every argument dictionary, if the `confirm` argument is
absent or Python-falsy (`None`, `False`, `0`, `""`, `[]`, `{}`) then
`run_tool` raises an error and `delete_file` is never invoked; conversely,
`delete_file` is invoked exactly when `filepath` is present and `confirm` is
present and truthy — in particular a truthy non-boolean such as `"yes"` also
triggers the deletion, so "not true" in the original claim must be weakened
to "not truthy". -/
theorem delete_tool_requires_truthy_confirm (args : DeleteArgs) :
    ((∀ v, args.confirm = some v → jTruthy v = false) →
      ∃ msg, deleteRunTool args = DeleteOutcome.error msg) ∧
    (∀ fp, deleteRunTool args = DeleteOutcome.deleted fp →
      (∃ v, args.confirm = some v ∧ jTruthy v = true) ∧ args.filepath = some fp) := by
  constructor
  · intro h
    cases hf : args.filepath with
    | none =>
      exact ⟨strL "filepath argument missing in arguments", by simp [deleteRunTool, hf]⟩
    | some fp =>
      have hc : jTruthy (args.confirm.getD (JValue.jbool false)) = false := by
        cases hcc : args.confirm with
        | none => rfl
        | some v => exact h v hcc
      exact ⟨strL "confirm must be set to true to delete a file",
        by simp [deleteRunTool, hf, hc]⟩
  · intro fp hdel
    cases hf : args.filepath with
    | none => simp [deleteRunTool, hf] at hdel
    | some fp' =>
      by_cases hc : jTruthy (args.confirm.getD (JValue.jbool false)) = false
      · simp [deleteRunTool, hf, hc] at hdel
      · have hct : ∃ v, args.confirm = some v ∧ jTruthy v = true := by
          cases hcc : args.confirm with
          | none => rw [hcc] at hc; exact absurd rfl hc
          | some v => rw [hcc] at hc; exact ⟨v, rfl, eq_true_of_ne_false hc⟩
        simp only [deleteRunTool, hf, hc, if_false] at hdel
        cases hdel
        exact ⟨hct, rfl⟩

theorem delete_tool_requires_truthy_confirm_witness :
    ∃ msg, deleteRunTool ⟨some (JValue.jstr (strL "note.md")), none⟩ =
      DeleteOutcome.error msg :=
  (delete_tool_requires_truthy_confirm
      ⟨some (JValue.jstr (strL "note.md")), none⟩).1
    (fun _ h => Option.noConfusion h)

/-- C2 fails as stated: the guard of `find_headings` only requires the
trimmed line to start with `'#'` and to contain a space *somewhere*, not a
space immediately after the marker run.  The line `"#foo bar"` does not
satisfy the specification's criterion, yet `find_headings` recognizes it as a
level-1 heading with text `"bar"`. -/
theorem heading_recognition_iff_fails :
    findHeadingsCore (strL "#foo bar") = [⟨1, strL "bar", strL "bar"⟩] ∧
    specIsHeading (strL "#foo bar") = false := by
  decide

theorem findHeadingsAux_map_level (ls : List (List Char)) (acc : List Heading) :
    (findHeadingsAux ls acc).map Heading.level =
      acc.map Heading.level ++
        (ls.filter isHeadingLine).map (fun l => countHash (pyStrip l)) := by
  induction ls generalizing acc with
  | nil => simp [findHeadingsAux]
  | cons line rest ih =>
    by_cases h : isHeadingLine line
    · simp [findHeadingsAux, h, ih]
    · simp [findHeadingsAux, h, ih]

theorem specHashThenSpace_mem_space (l : List Char)
    (h : specHashThenSpace l = true) : ' ' ∈ l := by
  induction l with
  | nil => simp [specHashThenSpace] at h
  | cons c rest ih =>
    by_cases hc : c = '#'
    · simp only [specHashThenSpace, hc, if_pos rfl] at h
      exact List.mem_cons_of_mem _ (ih h)
    · simp only [specHashThenSpace, if_neg hc, decide_eq_true_eq] at h
      rw [h]
      exact List.mem_cons_self _ _

/-- C2, amended: a line is recognized as a heading by `find_headings` exactly
when, after trimming, it starts with `'#'` and contains a space anywhere
(a strictly weaker test than the specification's "marker run immediately
followed by a space", which it subsumes); the scan emits exactly one entry per
recognized line, in order, and each entry's level is the count of leading
`'#'` characters of its trimmed line. -/
theorem heading_recognition_amended (ls : List (List Char)) :
    (findHeadingsLines ls).map Heading.level =
      (ls.filter isHeadingLine).map (fun l => countHash (pyStrip l)) ∧
    (∀ l, specIsHeading l = true → isHeadingLine l = true) := by
  constructor
  · simpa using findHeadingsAux_map_level ls []
  · intro l h
    unfold specIsHeading at h
    unfold isHeadingLine
    cases hs : pyStrip l with
    | nil => rw [hs] at h; simp at h
    | cons c rest =>
      rw [hs] at h
      simp only [Bool.and_eq_true, decide_eq_true_eq] at h
      obtain ⟨hc, hrest⟩ := h
      have hmem : ' ' ∈ c :: rest :=
        List.mem_cons_of_mem _ (specHashThenSpace_mem_space rest hrest)
      simp only [hs, List.head?_cons, Option.some.injEq, Bool.and_eq_true, decide_eq_true_eq,
        List.mem_cons]
      exact ⟨hc, List.mem_cons.mp hmem⟩

theorem heading_recognition_amended_witness :
    isHeadingLine (strL "## Section title") = true :=
  (heading_recognition_amended []).2 (strL "## Section title") (by decide)

theorem errorMsg_suggestion_split (filepath : List Char) (code : Int)
    (message : List Char) :
    ∃ pre, get_file_contents_error_msg filepath 404 code message =
      pre ++ (strL "\nSuggestion: Check if the file \x27" ++
        (normalize_path filepath ++
          strL "\x27 exists in your vault. Use list_files_in_vault() to see available files.")) := by
  unfold get_file_contents_error_msg safeCallHttpErrorMsg
  norm_num
  have hd : dictGet [(strL "filepath", normalize_path filepath)] (strL "filepath") [] =
      normalize_path filepath := rfl
  rw [hd]
  exact ⟨_, rfl⟩

/-- C6: for every filepath and every server-side error code and message, the
exception message built for a 404 response to `get_file_contents` contains
the normalized filepath and mentions `list_files_in_vault`. -/
theorem get_file_contents_404_message (filepath : List Char) (code : Int)
    (message : List Char) :
    occursIn (normalize_path filepath)
        (get_file_contents_error_msg filepath 404 code message) ∧
    occursIn (strL "list_files_in_vault")
        (get_file_contents_error_msg filepath 404 code message) := by
  obtain ⟨pre, hpre⟩ := errorMsg_suggestion_split filepath code message
  constructor
  · refine ⟨pre ++ strL "\nSuggestion: Check if the file \x27",
      strL "\x27 exists in your vault. Use list_files_in_vault() to see available files.", ?_⟩
    rw [hpre]
    simp [List.append_assoc]
  · refine ⟨pre ++ strL "\nSuggestion: Check if the file \x27" ++
        normalize_path filepath ++ strL "\x27 exists in your vault. Use ",
      strL "() to see available files.", ?_⟩
    rw [hpre]
    have hsplit :
        strL "\x27 exists in your vault. Use list_files_in_vault() to see available files." =
          strL "\x27 exists in your vault. Use " ++ strL "list_files_in_vault" ++
            strL "() to see available files." := by decide
    rw [hsplit]
    simp [List.append_assoc]

/-! ### Lemmas about the normalization pipeline (for C1) -/

theorem head?_mem {l : List Char} {a : Char} (h : l.head? = some a) : a ∈ l := by
  cases l with
  | nil => simp at h
  | cons b t =>
    simp only [List.head?_cons, Option.some.injEq] at h
    rw [← h]
    exact List.mem_cons_self _ _

theorem head?_append_left {u : List Char} (v : List Char) (h : u ≠ []) :
    (u ++ v).head? = u.head? := by
  cases u with
  | nil => exact absurd rfl h
  | cons a t => rfl

theorem mem_of_mem_dropWhile {p : Char → Bool} {l : List Char} {c : Char}
    (h : c ∈ l.dropWhile p) : c ∈ l :=
  (List.dropWhile_sublist p).subset h

theorem head?_dropWhile_false {p : Char → Bool} {l : List Char} {c : Char}
    (h : (l.dropWhile p).head? = some c) : p c = false := by
  induction l with
  | nil => simp at h
  | cons a t ih =>
    rw [List.dropWhile_cons] at h
    by_cases hp : p a
    · rw [if_pos hp] at h
      exact ih h
    · rw [if_neg hp] at h
      simp only [List.head?_cons, Option.some.injEq] at h
      rw [← h]
      exact Bool.eq_false_iff.mpr hp

theorem dropWhile_eq_self_of_head {p : Char → Bool} {l : List Char}
    (h : ∀ c, l.head? = some c → p c = false) : l.dropWhile p = l := by
  cases l with
  | nil => rfl
  | cons a t =>
    have ha := h a rfl
    rw [List.dropWhile_cons, ha]
    simp

theorem stripWhile_sub {p : Char → Bool} {l : List Char} {c : Char}
    (h : c ∈ stripWhile p l) : c ∈ l := by
  unfold stripWhile at h
  rw [List.mem_reverse] at h
  have h2 := mem_of_mem_dropWhile h
  rw [List.mem_reverse] at h2
  exact mem_of_mem_dropWhile h2

theorem stripWhile_decomp (p : Char → Bool) (l : List Char) :
    ∃ t, l.dropWhile p = stripWhile p l ++ t := by
  refine ⟨((l.dropWhile p).reverse.takeWhile p).reverse, ?_⟩
  unfold stripWhile
  rw [← List.reverse_append, List.takeWhile_append_dropWhile, List.reverse_reverse]

theorem stripWhile_head {p : Char → Bool} {l : List Char} {c : Char}
    (h : (stripWhile p l).head? = some c) : p c = false := by
  obtain ⟨t, ht⟩ := stripWhile_decomp p l
  apply head?_dropWhile_false (l := l)
  rw [ht]
  cases hs : stripWhile p l with
  | nil => rw [hs] at h; simp at h
  | cons a u =>
    rw [hs] at h
    rw [head?_append_left t (List.cons_ne_nil a u)]
    exact h

theorem stripWhile_revHead {p : Char → Bool} {l : List Char} {c : Char}
    (h : (stripWhile p l).reverse.head? = some c) : p c = false := by
  unfold stripWhile at h
  rw [List.reverse_reverse] at h
  exact head?_dropWhile_false h

theorem stripWhile_eq_self {p : Char → Bool} {l : List Char}
    (h : ∀ c ∈ l, p c = false) : stripWhile p l = l := by
  have h1 : l.dropWhile p = l :=
    dropWhile_eq_self_of_head (fun c hc => h c (head?_mem hc))
  unfold stripWhile
  rw [h1]
  have h2 : l.reverse.dropWhile p = l.reverse :=
    dropWhile_eq_self_of_head (fun c hc => h c (List.mem_reverse.mp (head?_mem hc)))
  rw [h2, List.reverse_reverse]

theorem map_eq_self_of_fixed {f : Char → Char} {l : List Char}
    (h : ∀ c ∈ l, f c = c) : l.map f = l := by
  induction l with
  | nil => rfl
  | cons a t ih =>
    simp only [List.map_cons]
    rw [h a (List.mem_cons_self _ _), ih (fun c hc => h c (List.mem_cons_of_mem _ hc))]

theorem replaceSS_length_le (l : List Char) : (replaceSS l).length ≤ l.length := by
  induction l using replaceSS.induct with
  | case1 => simp [replaceSS]
  | case2 c => simp [replaceSS]
  | case3 c1 c2 rest h ih =>
    simp only [replaceSS, if_pos h, List.length_cons]
    omega
  | case4 c1 c2 rest h ih =>
    simp only [replaceSS, if_neg h, List.length_cons]
    exact Nat.succ_le_succ ih

theorem replaceSS_length_lt {l : List Char} :
    hasSS l = true → (replaceSS l).length < l.length := by
  induction l using replaceSS.induct with
  | case1 => intro h; simp [hasSS] at h
  | case2 c => intro h; simp [hasSS] at h
  | case3 c1 c2 rest hc ih =>
    intro h
    simp only [replaceSS, if_pos hc, List.length_cons]
    have := replaceSS_length_le rest
    omega
  | case4 c1 c2 rest hc ih =>
    intro h
    have h2 : hasSS (c2 :: rest) = true := by
      simp only [hasSS, Bool.or_eq_true, Bool.and_eq_true, decide_eq_true_eq] at h
      rcases h with ⟨ha, hb⟩ | h
      · exact absurd ⟨ha, hb⟩ hc
      · exact h
    simp only [replaceSS, if_neg hc, List.length_cons]
    exact Nat.succ_lt_succ (ih h2)

theorem mem_replaceSS {l : List Char} {c : Char} (h : c ∈ replaceSS l) : c ∈ l := by
  induction l using replaceSS.induct with
  | case1 => simp [replaceSS] at h
  | case2 a => simpa [replaceSS] using h
  | case3 c1 c2 rest hc ih =>
    simp only [replaceSS, if_pos hc, List.mem_cons] at h
    rcases h with h | h
    · rw [h, hc.1]
      exact List.mem_cons_self _ _
    · exact List.mem_cons_of_mem _ (List.mem_cons_of_mem _ (ih h))
  | case4 c1 c2 rest hc ih =>
    simp only [replaceSS, if_neg hc, List.mem_cons] at h
    rcases h with h | h
    · rw [h]
      exact List.mem_cons_self _ _
    · exact List.mem_cons_of_mem _ (ih h)

theorem head?_replaceSS (l : List Char) : (replaceSS l).head? = l.head? := by
  induction l using replaceSS.induct with
  | case1 => rfl
  | case2 c => rfl
  | case3 c1 c2 rest hc ih =>
    obtain ⟨h1, h2⟩ := hc
    subst h1
    subst h2
    simp [replaceSS]
  | case4 c1 c2 rest hc ih => simp [replaceSS, if_neg hc]

theorem replaceSS_ne_nil {l : List Char} (h : l ≠ []) : replaceSS l ≠ [] := by
  intro he
  have hh := head?_replaceSS l
  rw [he] at hh
  cases l with
  | nil => exact h rfl
  | cons a t => simp at hh

theorem revHead_cons (a : Char) (t : List Char) :
    (a :: t).reverse.head? = if t = [] then some a else t.reverse.head? := by
  cases t with
  | nil => rfl
  | cons b u =>
    rw [if_neg (List.cons_ne_nil b u), List.reverse_cons,
      head?_append_left [a] (by simp)]

theorem revHead_replaceSS (l : List Char) :
    (replaceSS l).reverse.head? = l.reverse.head? := by
  induction l using replaceSS.induct with
  | case1 => rfl
  | case2 c => rfl
  | case3 c1 c2 rest hc ih =>
    obtain ⟨h1, h2⟩ := hc
    subst h1
    subst h2
    have hr : replaceSS ('/' :: '/' :: rest) = '/' :: replaceSS rest := by
      simp [replaceSS]
    rw [hr]
    cases rest with
    | nil => rfl
    | cons b u =>
      rw [revHead_cons '/' (replaceSS (b :: u)),
        if_neg (replaceSS_ne_nil (List.cons_ne_nil b u)), ih,
        revHead_cons '/' ('/' :: b :: u), if_neg (List.cons_ne_nil '/' (b :: u)),
        revHead_cons '/' (b :: u), if_neg (List.cons_ne_nil b u)]
  | case4 c1 c2 rest hc ih =>
    have hr : replaceSS (c1 :: c2 :: rest) = c1 :: replaceSS (c2 :: rest) := by
      simp only [replaceSS, if_neg hc]
    rw [hr, revHead_cons c1 (replaceSS (c2 :: rest)),
      if_neg (replaceSS_ne_nil (List.cons_ne_nil c2 rest)), ih,
      revHead_cons c1 (c2 :: rest), if_neg (List.cons_ne_nil c2 rest)]

theorem mem_collapseFuel {n : Nat} {l : List Char} {c : Char}
    (h : c ∈ collapseFuel n l) : c ∈ l := by
  induction n generalizing l with
  | zero => exact h
  | succ n ih =>
    simp only [collapseFuel] at h
    by_cases hs : hasSS l
    · rw [if_pos hs] at h
      exact mem_replaceSS (ih h)
    · rwa [if_neg hs] at h

theorem head?_collapseFuel (n : Nat) (l : List Char) :
    (collapseFuel n l).head? = l.head? := by
  induction n generalizing l with
  | zero => rfl
  | succ n ih =>
    simp only [collapseFuel]
    by_cases hs : hasSS l
    · rw [if_pos hs, ih, head?_replaceSS]
    · rw [if_neg hs]

theorem revHead_collapseFuel (n : Nat) (l : List Char) :
    (collapseFuel n l).reverse.head? = l.reverse.head? := by
  induction n generalizing l with
  | zero => rfl
  | succ n ih =>
    simp only [collapseFuel]
    by_cases hs : hasSS l
    · rw [if_pos hs, ih, revHead_replaceSS]
    · rw [if_neg hs]

theorem hasSS_collapseFuel {n : Nat} {l : List Char} (h : l.length ≤ n) :
    hasSS (collapseFuel n l) = false := by
  induction n generalizing l with
  | zero =>
    have hl : l = [] := List.length_eq_zero.mp (Nat.le_zero.mp h)
    rw [hl]
    rfl
  | succ n ih =>
    simp only [collapseFuel]
    by_cases hs : hasSS l
    · rw [if_pos hs]
      exact ih (Nat.le_of_lt_succ (Nat.lt_of_lt_of_le (replaceSS_length_lt hs) h))
    · rw [if_neg hs]
      exact Bool.eq_false_iff.mpr hs

theorem collapseFuel_of_no_ss {n : Nat} {l : List Char} (h : hasSS l = false) :
    collapseFuel n l = l := by
  cases n with
  | zero => rfl
  | succ n => simp [collapseFuel, h]

theorem mem_collapseSlashes {l : List Char} {c : Char}
    (h : c ∈ collapseSlashes l) : c ∈ l := mem_collapseFuel h

theorem head?_collapseSlashes (l : List Char) :
    (collapseSlashes l).head? = l.head? := head?_collapseFuel _ _

theorem revHead_collapseSlashes (l : List Char) :
    (collapseSlashes l).reverse.head? = l.reverse.head? := revHead_collapseFuel _ _

theorem hasSS_collapseSlashes (l : List Char) :
    hasSS (collapseSlashes l) = false := hasSS_collapseFuel (Nat.le_refl _)

theorem normalize_path_no_backslash (path : List Char) :
    ∀ c ∈ normalize_path path, c ≠ '\\' := by
  intro c hc
  unfold normalize_path at hc
  by_cases hp : path = []
  · rw [if_pos hp] at hc
    simp at hc
  · rw [if_neg hp] at hc
    obtain ⟨a, _, ha⟩ := List.mem_map.mp (mem_collapseSlashes hc)
    rw [← ha]
    by_cases hab : a = '\\'
    · rw [if_pos hab]
      decide
    · rw [if_neg hab]
      exact hab

theorem normalize_path_no_double_slash (path : List Char) :
    hasSS (normalize_path path) = false := by
  unfold normalize_path
  by_cases hp : path = []
  · rw [if_pos hp]
    rfl
  · rw [if_neg hp]
    exact hasSS_collapseSlashes _

theorem normalize_path_fixpoint {r : List Char}
    (hws : ∀ c, r.head? = some c → pyIsSpace c = false)
    (hws2 : ∀ c, r.reverse.head? = some c → pyIsSpace c = false)
    (hsl : ∀ c, r.head? = some c → (c == '/') = false)
    (hsl2 : ∀ c, r.reverse.head? = some c → (c == '/') = false)
    (hbs : ∀ c ∈ r, c ≠ '\\')
    (hss : hasSS r = false) :
    normalize_path r = r := by
  by_cases hr : r = []
  · rw [hr]
    rfl
  · unfold normalize_path
    rw [if_neg hr]
    have h1 : pyStrip r = r := by
      unfold pyStrip stripWhile
      rw [dropWhile_eq_self_of_head hws, dropWhile_eq_self_of_head hws2,
        List.reverse_reverse]
    have h2 : stripSlashes r = r := by
      unfold stripSlashes stripWhile
      rw [dropWhile_eq_self_of_head hsl, dropWhile_eq_self_of_head hsl2,
        List.reverse_reverse]
    have h3 : r.map (fun c => if c = '\\' then '/' else c) = r :=
      map_eq_self_of_fixed (fun c hc => by rw [if_neg (hbs c hc)])
    rw [h1, h2, h3]
    unfold collapseSlashes
    exact collapseFuel_of_no_ss hss

/-- C1 fails as stated: on the path `"/ a"`, one normalization strips the
slash and exposes a leading blank (`" a"`), which a second normalization then
strips, so normalizing twice differs from normalizing once. -/
theorem normalize_path_not_idempotent :
    normalize_path (normalize_path (strL "/ a")) ≠ normalize_path (strL "/ a") := by
  decide

/-- C1, amended: the normalized result never contains a backslash or two
adjacent slashes (as claimed); idempotence, however, holds only under a
precondition — here, for every path containing no backslash and no whitespace
character.  (In general a first normalization can expose boundary whitespace
or turn a boundary backslash into an unstripped slash, which a second pass
removes.) -/
theorem normalize_path_correct (path : List Char) :
    (∀ c ∈ normalize_path path, c ≠ '\\') ∧
    hasSS (normalize_path path) = false ∧
    ((∀ c ∈ path, c ≠ '\\' ∧ pyIsSpace c = false) →
      normalize_path (normalize_path path) = normalize_path path) := by
  refine ⟨normalize_path_no_backslash path, normalize_path_no_double_slash path, ?_⟩
  intro h
  by_cases hp : path = []
  · rw [hp]
    rfl
  · have hstrip : pyStrip path = path :=
      stripWhile_eq_self (fun c hc => (h c hc).2)
    have hmapid : (stripSlashes path).map (fun c => if c = '\\' then '/' else c) =
        stripSlashes path :=
      map_eq_self_of_fixed (fun c hc => by rw [if_neg ((h c (stripWhile_sub hc)).1)])
    have hrw : normalize_path path = collapseSlashes (stripSlashes path) := by
      unfold normalize_path
      rw [if_neg hp, hstrip, hmapid]
    rw [hrw]
    apply normalize_path_fixpoint
    · intro c hc
      rw [head?_collapseSlashes] at hc
      exact (h c (stripWhile_sub (head?_mem hc))).2
    · intro c hc
      rw [revHead_collapseSlashes] at hc
      exact (h c (stripWhile_sub (List.mem_reverse.mp (head?_mem hc)))).2
    · intro c hc
      rw [head?_collapseSlashes] at hc
      unfold stripSlashes at hc
      exact @stripWhile_head (fun x => x == '/') path c hc
    · intro c hc
      rw [revHead_collapseSlashes] at hc
      unfold stripSlashes at hc
      exact @stripWhile_revHead (fun x => x == '/') path c hc
    · intro c hc
      exact (h c (stripWhile_sub (mem_collapseSlashes hc))).1
    · exact hasSS_collapseSlashes _

theorem normalize_path_correct_witness :
    normalize_path (normalize_path (strL "//notes//a.md/")) =
      normalize_path (strL "//notes//a.md/") :=
  (normalize_path_correct (strL "//notes//a.md/")).2.2 (by decide)

end McpObsidian
